import Mathlib

/-!
Verification of the SnaPy MinHash core (`snapy/minhash.py`) against its
specification.  The Python module is shallowly embedded below: every
definition mirrors one function (or one code path) of the source file.
The external collaborators of the module — the `mmh3` hash library and
the `np.random` pseudo-random source — are modelled as explicit
parameters (`HashEngine`, `RngModel`); for concrete evaluations a
faithful Lean implementation of MurmurHash3 x86 32-bit (the algorithm
behind `mmh3.hash`) is provided.
-/

namespace SnaPy

/-- The distinct `ValueError`s raised by `minhash.py`, one constructor per
`raise` site: the three eager configuration checks of `MinHash.__init__`,
the empty-shingle check of `_k_shingles`, and the permutations-vs-shingles
check of `_k_smallest_hash`. -/
inductive MHError where
  | invalidNGramType
  | invalidHashBits
  | invalidMethod
  | insufficientText
  | permutationsError
deriving DecidableEq

/-- The `mmh3` library used by the source, modelled as an abstract triple of
pure hash functions (`mmh3.hash`, `mmh3.hash64(...)[0]`, `mmh3.hash128`),
each taking a shingle and an integer seed.  The source treats these as
opaque deterministic functions, so the embedding quantifies over them. -/
structure HashEngine where
  hash32 : String → Int → Int
  hash64 : String → Int → Int
  hash128 : String → Int → Int

/-- The hash-width dispatch appearing (twice) in the source: `hash_bits == 64`
selects `mmh3.hash64(shingle, seed)[0]`, `hash_bits == 32` selects
`mmh3.hash(shingle, seed)`, anything else falls through to `mmh3.hash128`. -/
def hashOf (E : HashEngine) (hashBits : Nat) (shingle : String) (seed : Int) : Int :=
  if hashBits = 64 then E.hash64 shingle seed
  else if hashBits = 32 then E.hash32 shingle seed
  else E.hash128 shingle seed

/-- The `np.random` module, modelled abstractly over a state type `σ`.
`seedFn` is `np.random.seed` (a deterministic reset of the state),
`randints st n` is the value of `np.random.randint(low=1, high=100_000_000,
size=n)` at state `st`, and `randint1 st` the value of the size-free call
`np.random.randint(low=1, high=100_000_000)`.  The only contract the
claims need is that a size-`n` draw yields `n` integers. -/
structure RngModel (σ : Type) where
  seedFn : Int → σ
  randints : σ → Nat → List Int
  randint1 : σ → Int
  randints_length : ∀ st n, (randints st n).length = n

/-! ### `thread_multi_hash` (minhash.py lines 16-54) -/

/-- One iteration of the inner loop of `thread_multi_hash`.  The accumulator
starts as `None` (`none`); the source updates it with

  `if not _min_value: _min_value = hash_value`
  `elif _min_value > hash_value: _min_value = hash_value`

and Python truthiness makes `not _min_value` hold both for `None` and for
the integer `0`, which is mirrored by the `v = 0` test below. -/
def minStep (E : HashEngine) (hashBits : Nat) (seed : Int)
    (acc : Option Int) (shingle : String) : Option Int :=
  let hv := hashOf E hashBits shingle seed
  match acc with
  | none => some hv
  | some v => if v = 0 then some hv else if v > hv then some hv else some v

/-- `thread_multi_hash(document, hash_seeds, hash_bits)`: for each seed (in
seed order, as `np.nditer` iterates), scan the document's shingles keeping
the running value `_min_value`, and collect the per-seed results. -/
def threadMultiHash (E : HashEngine) (document : List String)
    (hashSeeds : List Int) (hashBits : Nat) : List (Option Int) :=
  hashSeeds.map (fun seed => document.foldl (minStep E hashBits seed) none)

/-! ### `MinHash._k_shingles` (minhash.py lines 139-174) -/

/-- Python list slicing `l[:t]` for an arbitrary integer bound `t`:
a nonnegative bound keeps the first `t` elements, a negative bound drops
the last `-t` elements. -/
def pySliceTo {α : Type} (l : List α) (t : Int) : List α :=
  if 0 ≤ t then l.take t.toNat else l.take (l.length - (-t).toNat)

/-- Python string slicing `s[start:start+len]` (clamped at the end of the
string), on the character sequence of the string. -/
def pySubstr (s : String) (start len : Nat) : String :=
  String.mk ((s.data.drop start).take len)

/-- Python `str.split()` with no separator: split on whitespace and drop
the empty pieces. -/
def pySplitWs (s : String) : List String :=
  (s.split (fun c => c.isWhitespace)).filter (fun t => t ≠ "")

/-- The shingle list `_k_shingles` builds for one text before its emptiness
check.  `trim_overflow = (n_gram - 1) * -1 = 1 - n_gram` is applied as the
slice bound `[:trim_overflow]`.  Char mode windows over characters; term
mode splits into whitespace-delimited terms and joins each window with a
single space. -/
def rawShingles (nGram : Nat) (nGramType : String) (text : String) : List String :=
  if nGramType = "char" then
    pySliceTo ((List.range text.length).map (fun c => pySubstr text c nGram))
      (1 - (nGram : Int))
  else
    let terms := pySplitWs text
    pySliceTo ((List.range terms.length).map
        (fun t => String.intercalate " " ((terms.drop t).take nGram)))
      (1 - (nGram : Int))

/-- The per-text step of the `_k_shingles` generator: build the shingle
list, then `raise ValueError(...)` when it is empty. -/
def kShingles1 (nGram : Nat) (nGramType : String) (text : String) :
    Except MHError (List String) :=
  if rawShingles nGram nGramType text = [] then .error .insufficientText
  else .ok (rawShingles nGram nGramType text)

/-- The multi-hash path consumes the whole `_k_shingles` generator up front
(`pool.map` converts it to a list), so shingling errors surface in corpus
order before any hashing. -/
def shinglesAll (nGram : Nat) (nGramType : String) :
    List String → Except MHError (List (List String))
  | [] => .ok []
  | t :: ts =>
    match kShingles1 nGram nGramType t with
    | .error e => .error e
    | .ok s =>
      match shinglesAll nGram nGramType ts with
      | .error e => .error e
      | .ok rest => .ok (s :: rest)

/-! ### `MinHash._k_smallest_hash` (minhash.py lines 176-212) -/

/-- `_k_smallest_hash(document)`: reject documents with at most
`permutations` shingles, hash every shingle once with the single session
seed, and return `heapq.nsmallest(permutations, signature)`, i.e. the
`permutations` smallest hash values in ascending order. -/
def kSmallestHash (E : HashEngine) (permutations : Nat) (hashBits : Nat)
    (hashSeed : Int) (document : List String) : Except MHError (List Int) :=
  if document.length ≤ permutations then .error .permutationsError
  else
    .ok (((document.map (fun sh => hashOf E hashBits sh hashSeed)).insertionSort
      (fun a b => a ≤ b)).take permutations)

/-- The k-smallest corpus loop of `_min_hash`.  Because `_k_shingles` is a
generator, each document is shingled immediately before being hashed, so
shingling errors and permutation-count errors interleave per document. -/
def kSmallestPipeline (E : HashEngine) (nGram : Nat) (nGramType : String)
    (permutations : Nat) (hashBits : Nat) (hashSeed : Int) :
    List String → Except MHError (List (List Int))
  | [] => .ok []
  | t :: ts =>
    match kShingles1 nGram nGramType t with
    | .error e => .error e
    | .ok sh =>
      match kSmallestHash E permutations hashBits hashSeed sh with
      | .error e => .error e
      | .ok sig =>
        match kSmallestPipeline E nGram nGramType permutations hashBits hashSeed ts with
        | .error e => .error e
        | .ok rest => .ok (sig :: rest)

/-! ### `MinHash.__init__` + `MinHash._min_hash` (minhash.py lines 72-137, 214-231) -/

/-- The state of the pseudo-random source after the seeding step of
`MinHash.__init__`:

  `self.seed = None`
  `if seed:`
  `    self.seed = seed`
  `    np.random.seed(seed)`

Python truthiness makes `if seed:` skip the reseeding both for `None` and
for the integer `0`, in which case the source stays in its ambient state. -/
def sessionState {σ : Type} (R : RngModel σ) (ambient : σ) (seed : Option Int) : σ :=
  match seed with
  | none => ambient
  | some s => if s = 0 then ambient else R.seedFn s

/-- The whole construction `MinHash(text, n_gram, n_gram_type, permutations,
hash_bits, method, seed, n_jobs)`.

`ambient : σ` is the state of the process-global `np.random` source when the
constructor runs (a second construction in the same process starts from a
different ambient state, since the first construction's draws advanced it).
The source sets `self.seed` and reseeds only under `if seed:`, so a supplied
seed of `0` is treated like `None` (Python truthiness); this is mirrored by
the `s = 0` test.  Matrix entries are `Option Int` because
`thread_multi_hash` initialises its running value with `None`; the
k-smallest rows, which are always present, are embedded with `some`.
The comparisons `method is 'multi_hash'` in the source are identity tests
on interned string literals and behave as equality, which is how they are
modelled.  A corpus is passed as a list of documents (the source's
single-string convenience wrapping is outside the claims).  `n_jobs` only
sizes the worker pool of `pool.map`, which preserves input order, so it
does not appear in the model. -/
def minHash {σ : Type} (E : HashEngine) (R : RngModel σ) (ambient : σ)
    (nGram : Nat) (nGramType : String) (permutations : Nat) (hashBits : Nat)
    (method : String) (seed : Option Int) (text : List String) :
    Except MHError (List (List (Option Int))) :=
  if ¬ (nGramType = "char" ∨ nGramType = "term") then .error .invalidNGramType
  else if ¬ (hashBits = 32 ∨ hashBits = 64 ∨ hashBits = 128) then .error .invalidHashBits
  else if ¬ (method = "multi_hash" ∨ method = "k_smallest_values") then .error .invalidMethod
  else if method = "multi_hash" then
    (shinglesAll nGram nGramType text).map
      (fun docs => docs.map (fun d =>
        threadMultiHash E d (R.randints (sessionState R ambient seed) permutations) hashBits))
  else
    (kSmallestPipeline E nGram nGramType permutations hashBits
        (R.randint1 (sessionState R ambient seed)) text).map
      (fun rows => rows.map (fun row => row.map some))

/-! ### MurmurHash3 x86 32-bit (the algorithm behind `mmh3.hash`)

`mmh3.hash(shingle, seed)` computes MurmurHash3_x86_32 over the UTF-8 bytes
of the shingle and returns the result as a signed 32-bit integer.  The
implementation below follows the reference algorithm, with 32-bit machine
words represented as `Nat` reduced modulo `2 ^ 32`. -/

/-- Truncation to a 32-bit word. -/
def u32 (x : Nat) : Nat := x % 4294967296

/-- 32-bit left rotation. -/
def rotl32 (x r : Nat) : Nat := u32 ((x <<< r) + (x >>> (32 - r)))

/-- The MurmurHash3 per-block key mixing (`k1 *= c1; k1 = rotl(k1,15);
k1 *= c2`). -/
def mmMix (k : Nat) : Nat :=
  u32 (rotl32 (u32 (k * 0xcc9e2d51)) 15 * 0x1b873593)

/-- One full-block step of the MurmurHash3 body (`h1 ^= k1;
h1 = rotl(h1,13); h1 = h1*5 + 0xe6546b64`). -/
def mmStep (h k : Nat) : Nat :=
  u32 (rotl32 (Nat.xor h (mmMix k)) 13 * 5 + 0xe6546b64)

/-- The tail of MurmurHash3: the final 0-3 bytes are assembled
little-endian, mixed, and folded into the state. -/
def mmTail (h : Nat) : List Nat → Nat
  | [] => h
  | [b0] => Nat.xor h (mmMix b0)
  | [b0, b1] => Nat.xor h (mmMix (b0 + b1 * 256))
  | [b0, b1, b2] => Nat.xor h (mmMix (b0 + b1 * 256 + b2 * 65536))
  | _ => h

/-- The MurmurHash3 body: consume the byte stream four bytes at a time
(little-endian words), then handle the tail. -/
def mmBody (h : Nat) : List Nat → Nat
  | b0 :: b1 :: b2 :: b3 :: rest =>
    mmBody (mmStep h (b0 + b1 * 256 + b2 * 65536 + b3 * 16777216)) rest
  | tail => mmTail h tail

/-- The MurmurHash3 finalizer (avalanche). -/
def mmFinal (h : Nat) : Nat :=
  let h := Nat.xor h (h >>> 16)
  let h := u32 (h * 0x85ebca6b)
  let h := Nat.xor h (h >>> 13)
  let h := u32 (h * 0xc2b2ae35)
  Nat.xor h (h >>> 16)

/-- MurmurHash3_x86_32 of a byte list with a 32-bit seed. -/
def murmur32 (bytes : List Nat) (seed : Nat) : Nat :=
  mmFinal (Nat.xor (mmBody (u32 seed) bytes) (u32 bytes.length))

/-- Reinterpret an unsigned 32-bit value as a signed one, as `mmh3.hash`
does by default. -/
def signed32 (x : Nat) : Int :=
  if x < 2147483648 then (x : Int) else (x : Int) - 4294967296

/-- `mmh3.hash(s, seed)` for ASCII strings (whose UTF-8 bytes are their
character codes) and nonnegative seeds. -/
def mmh3Hash32 (s : String) (seed : Int) : Int :=
  signed32 (murmur32 (s.data.map Char.toNat) seed.toNat)

/-- A hash engine whose 32-bit component is the real `mmh3.hash`
(MurmurHash3 x86 32-bit).  The 64- and 128-bit components are never
exercised where this engine is used (`hash_bits = 32`), so they reuse the
same function as a placeholder. -/
def mmh3Engine : HashEngine :=
  ⟨mmh3Hash32, mmh3Hash32, mmh3Hash32⟩

/-! ### Concrete instantiations used by counterexamples and witnesses -/

/-- A concrete `np.random` model on state type `Int`: seeding stores the
seed, a size-`n` draw yields `st, st+1, ...`, a single draw yields `st`. -/
def rngLinear : RngModel Int :=
  ⟨fun s => s, fun st n => (List.range n).map (fun i => st + Int.ofNat i),
   fun st => st, by intro st n; simp⟩

/-- A hash engine returning the seed, ignoring the shingle. -/
def hashSeedOnly : HashEngine :=
  ⟨fun _ sd => sd, fun _ sd => sd, fun _ sd => sd⟩

/-- A hash engine returning the shingle's length, ignoring the seed. -/
def hashShingleLen : HashEngine :=
  ⟨fun sh _ => sh.length, fun sh _ => sh.length, fun sh _ => sh.length⟩

/-! ### Helper lemmas -/

theorem except_map_ok {ε α β : Type} {f : α → β} {x : Except ε α} {b : β} :
    x.map f = .ok b ↔ ∃ a, x = .ok a ∧ f a = b := by
  cases x <;> simp [Except.map]

theorem except_map_error {ε α β : Type} {f : α → β} {x : Except ε α} {e : ε} :
    x.map f = .error e ↔ x = .error e := by
  cases x <;> simp [Except.map]

theorem kShingles1_ok_iff {nGram : Nat} {gt t : String} {s : List String} :
    kShingles1 nGram gt t = .ok s ↔
      rawShingles nGram gt t ≠ [] ∧ s = rawShingles nGram gt t := by
  unfold kShingles1
  by_cases h : rawShingles nGram gt t = []
  · rw [if_pos h]
    exact iff_of_false (fun hc => by cases hc) (fun hc => hc.1 h)
  · rw [if_neg h]
    constructor
    · intro hc; exact ⟨h, (Except.ok.inj hc).symm⟩
    · rintro ⟨-, rfl⟩; rfl

theorem kShingles1_error_iff {nGram : Nat} {gt t : String} {e : MHError} :
    kShingles1 nGram gt t = .error e ↔
      rawShingles nGram gt t = [] ∧ e = .insufficientText := by
  unfold kShingles1
  by_cases h : rawShingles nGram gt t = []
  · rw [if_pos h]
    constructor
    · intro hc; exact ⟨h, (Except.error.inj hc).symm⟩
    · rintro ⟨-, rfl⟩; rfl
  · rw [if_neg h]
    exact iff_of_false (fun hc => by cases hc) (fun hc => h hc.1)

theorem shinglesAll_ok_iff {nGram : Nat} {gt : String} {ts : List String}
    {out : List (List String)} :
    shinglesAll nGram gt ts = .ok out ↔
      (∀ t ∈ ts, rawShingles nGram gt t ≠ []) ∧
        out = ts.map (rawShingles nGram gt) := by
  induction ts generalizing out with
  | nil =>
    constructor
    · intro h; injection h with h; subst h
      exact ⟨fun x hx => absurd hx (List.not_mem_nil x), rfl⟩
    · rintro ⟨-, rfl⟩; rfl
  | cons t ts ih =>
    constructor
    · intro h
      rw [shinglesAll] at h
      cases hk : kShingles1 nGram gt t with
      | error e => rw [hk] at h; cases h
      | ok s =>
        rw [hk] at h
        cases ha : shinglesAll nGram gt ts with
        | error e => rw [ha] at h; cases h
        | ok rest =>
          rw [ha] at h
          injection h with h
          subst h
          obtain ⟨hne, hs⟩ := kShingles1_ok_iff.mp hk
          obtain ⟨hall, hrest⟩ := ih.mp ha
          subst hs; subst hrest
          refine ⟨?_, rfl⟩
          intro x hx
          rcases List.mem_cons.mp hx with hx | hx
          · subst hx; exact hne
          · exact hall x hx
    · rintro ⟨hall, rfl⟩
      rw [shinglesAll,
        kShingles1_ok_iff.mpr ⟨hall t (List.mem_cons_self t ts), rfl⟩,
        ih.mpr ⟨fun x hx => hall x (List.mem_cons_of_mem t hx), rfl⟩]
      rfl

theorem shinglesAll_cons_error {nGram : Nat} {gt t : String} {ts : List String}
    {e : MHError} (hk : kShingles1 nGram gt t = .error e) :
    shinglesAll nGram gt (t :: ts) = .error e := by
  rw [shinglesAll, hk]

theorem shinglesAll_cons_ok_error {nGram : Nat} {gt t : String}
    {ts : List String} {s : List String} {e : MHError}
    (hk : kShingles1 nGram gt t = .ok s)
    (ha : shinglesAll nGram gt ts = .error e) :
    shinglesAll nGram gt (t :: ts) = .error e := by
  rw [shinglesAll, hk, ha]

theorem shinglesAll_cons_ok_ok {nGram : Nat} {gt t : String}
    {ts : List String} {s : List String} {rest : List (List String)}
    (hk : kShingles1 nGram gt t = .ok s)
    (ha : shinglesAll nGram gt ts = .ok rest) :
    shinglesAll nGram gt (t :: ts) = .ok (s :: rest) := by
  rw [shinglesAll, hk, ha]

theorem shinglesAll_error_iff {nGram : Nat} {gt : String} {ts : List String}
    {e : MHError} :
    shinglesAll nGram gt ts = .error e ↔
      e = .insufficientText ∧ ∃ t ∈ ts, rawShingles nGram gt t = [] := by
  induction ts with
  | nil => simp [shinglesAll]
  | cons t ts ih =>
    constructor
    · intro h
      cases hk : kShingles1 nGram gt t with
      | error e2 =>
        rw [shinglesAll_cons_error hk] at h
        injection h with h; subst h
        obtain ⟨hraw, rfl⟩ := kShingles1_error_iff.mp hk
        exact ⟨rfl, t, List.mem_cons_self t ts, hraw⟩
      | ok s =>
        cases ha : shinglesAll nGram gt ts with
        | error e2 =>
          rw [shinglesAll_cons_ok_error hk ha] at h
          injection h with h; subst h
          obtain ⟨he, x, hx, hraw⟩ := ih.mp ha
          exact ⟨he, x, List.mem_cons_of_mem t hx, hraw⟩
        | ok rest =>
          rw [shinglesAll_cons_ok_ok hk ha] at h
          cases h
    · rintro ⟨rfl, x, hx, hraw⟩
      rcases List.mem_cons.mp hx with rfl | hx
      · exact shinglesAll_cons_error (kShingles1_error_iff.mpr ⟨hraw, rfl⟩)
      · cases hk : kShingles1 nGram gt t with
        | error e2 =>
          obtain ⟨-, rfl⟩ := kShingles1_error_iff.mp hk
          exact shinglesAll_cons_error hk
        | ok s =>
          exact shinglesAll_cons_ok_error hk (ih.mpr ⟨rfl, x, hx, hraw⟩)

theorem kSmallestHash_ok_iff {E : HashEngine} {p bits : Nat} {s : Int}
    {doc : List String} {sig : List Int} :
    kSmallestHash E p bits s doc = .ok sig ↔
      p < doc.length ∧
        sig = ((doc.map (fun sh => hashOf E bits sh s)).insertionSort
          (fun a b => a ≤ b)).take p := by
  unfold kSmallestHash
  by_cases h : doc.length ≤ p
  · rw [if_pos h]
    exact iff_of_false (fun hc => by cases hc)
      (fun hc => absurd hc.1 (Nat.not_lt_of_le h))
  · rw [if_neg h]
    constructor
    · intro hc; exact ⟨Nat.lt_of_not_le h, (Except.ok.inj hc).symm⟩
    · rintro ⟨-, rfl⟩; rfl

theorem kSmallestHash_error_iff {E : HashEngine} {p bits : Nat} {s : Int}
    {doc : List String} {e : MHError} :
    kSmallestHash E p bits s doc = .error e ↔
      doc.length ≤ p ∧ e = .permutationsError := by
  unfold kSmallestHash
  by_cases h : doc.length ≤ p
  · rw [if_pos h]
    constructor
    · intro hc; exact ⟨h, (Except.error.inj hc).symm⟩
    · rintro ⟨-, rfl⟩; rfl
  · rw [if_neg h]
    exact iff_of_false (fun hc => by cases hc) (fun hc => h hc.1)

/-- The per-document signature a successful k-smallest run assigns. -/
def kSmallestSig (E : HashEngine) (nGram : Nat) (gt : String) (p bits : Nat)
    (s : Int) (t : String) : List Int :=
  (((rawShingles nGram gt t).map (fun sh => hashOf E bits sh s)).insertionSort
    (fun a b => a ≤ b)).take p

theorem kPipe_cons_shingle_error {E : HashEngine} {nGram : Nat}
    {gt t : String} {ts : List String} {p bits : Nat} {s : Int} {e : MHError}
    (hk : kShingles1 nGram gt t = .error e) :
    kSmallestPipeline E nGram gt p bits s (t :: ts) = .error e := by
  rw [kSmallestPipeline, hk]

theorem kPipe_cons_hash_error {E : HashEngine} {nGram : Nat} {gt t : String}
    {ts : List String} {p bits : Nat} {s : Int} {sh : List String} {e : MHError}
    (hk : kShingles1 nGram gt t = .ok sh)
    (hs : kSmallestHash E p bits s sh = .error e) :
    kSmallestPipeline E nGram gt p bits s (t :: ts) = .error e := by
  rw [kSmallestPipeline, hk]
  show (match kSmallestHash E p bits s sh with
        | Except.error e => Except.error e
        | Except.ok sig =>
          match kSmallestPipeline E nGram gt p bits s ts with
          | Except.error e => Except.error e
          | Except.ok rest => Except.ok (sig :: rest) :
        Except MHError (List (List Int))) = Except.error e
  rw [hs]

theorem kPipe_cons_ok_error {E : HashEngine} {nGram : Nat} {gt t : String}
    {ts : List String} {p bits : Nat} {s : Int} {sh : List String}
    {sig : List Int} {e : MHError}
    (hk : kShingles1 nGram gt t = .ok sh)
    (hs : kSmallestHash E p bits s sh = .ok sig)
    (ha : kSmallestPipeline E nGram gt p bits s ts = .error e) :
    kSmallestPipeline E nGram gt p bits s (t :: ts) = .error e := by
  rw [kSmallestPipeline, hk]
  show (match kSmallestHash E p bits s sh with
        | Except.error e => Except.error e
        | Except.ok sig =>
          match kSmallestPipeline E nGram gt p bits s ts with
          | Except.error e => Except.error e
          | Except.ok rest => Except.ok (sig :: rest) :
        Except MHError (List (List Int))) = Except.error e
  rw [hs, ha]

theorem kPipe_cons_ok_ok {E : HashEngine} {nGram : Nat} {gt t : String}
    {ts : List String} {p bits : Nat} {s : Int} {sh : List String}
    {sig : List Int} {rest : List (List Int)}
    (hk : kShingles1 nGram gt t = .ok sh)
    (hs : kSmallestHash E p bits s sh = .ok sig)
    (ha : kSmallestPipeline E nGram gt p bits s ts = .ok rest) :
    kSmallestPipeline E nGram gt p bits s (t :: ts) = .ok (sig :: rest) := by
  rw [kSmallestPipeline, hk]
  show (match kSmallestHash E p bits s sh with
        | Except.error e => Except.error e
        | Except.ok sig =>
          match kSmallestPipeline E nGram gt p bits s ts with
          | Except.error e => Except.error e
          | Except.ok rest => Except.ok (sig :: rest) :
        Except MHError (List (List Int))) = Except.ok (sig :: rest)
  rw [hs, ha]

theorem kSmallestPipeline_ok_iff {E : HashEngine} {nGram : Nat} {gt : String}
    {p bits : Nat} {s : Int} {ts : List String} {out : List (List Int)} :
    kSmallestPipeline E nGram gt p bits s ts = .ok out ↔
      (∀ t ∈ ts, p < (rawShingles nGram gt t).length) ∧
        out = ts.map (kSmallestSig E nGram gt p bits s) := by
  induction ts generalizing out with
  | nil =>
    constructor
    · intro h; injection h with h; subst h
      exact ⟨fun x hx => absurd hx (List.not_mem_nil x), rfl⟩
    · rintro ⟨-, rfl⟩; rfl
  | cons t ts ih =>
    constructor
    · intro h
      cases hk : kShingles1 nGram gt t with
      | error e => rw [kPipe_cons_shingle_error hk] at h; cases h
      | ok sh =>
        cases hs : kSmallestHash E p bits s sh with
        | error e => rw [kPipe_cons_hash_error hk hs] at h; cases h
        | ok sig =>
          cases ha : kSmallestPipeline E nGram gt p bits s ts with
          | error e => rw [kPipe_cons_ok_error hk hs ha] at h; cases h
          | ok rest =>
            rw [kPipe_cons_ok_ok hk hs ha] at h
            injection h with h
            subst h
            obtain ⟨-, rfl⟩ := kShingles1_ok_iff.mp hk
            obtain ⟨hlen, rfl⟩ := kSmallestHash_ok_iff.mp hs
            obtain ⟨hall, hrest⟩ := ih.mp ha
            subst hrest
            refine ⟨?_, rfl⟩
            intro x hx
            rcases List.mem_cons.mp hx with hx | hx
            · subst hx; exact hlen
            · exact hall x hx
    · rintro ⟨hall, rfl⟩
      have hlen := hall t (List.mem_cons_self t ts)
      have hne : rawShingles nGram gt t ≠ [] := by
        intro hraw; rw [hraw] at hlen; exact Nat.not_lt_zero p hlen
      exact kPipe_cons_ok_ok (kShingles1_ok_iff.mpr ⟨hne, rfl⟩)
        (kSmallestHash_ok_iff.mpr ⟨hlen, rfl⟩)
        (ih.mpr ⟨fun x hx => hall x (List.mem_cons_of_mem t hx), rfl⟩)

theorem kSmallestPipeline_error_cases {E : HashEngine} {nGram : Nat}
    {gt : String} {p bits : Nat} {s : Int} {ts : List String} {e : MHError}
    (h : kSmallestPipeline E nGram gt p bits s ts = .error e) :
    e = .insufficientText ∨ e = .permutationsError := by
  induction ts with
  | nil => cases h
  | cons t ts ih =>
    cases hk : kShingles1 nGram gt t with
    | error e2 =>
      rw [kPipe_cons_shingle_error hk] at h
      injection h with h; subst h
      exact Or.inl (kShingles1_error_iff.mp hk).2
    | ok sh =>
      cases hs : kSmallestHash E p bits s sh with
      | error e2 =>
        rw [kPipe_cons_hash_error hk hs] at h
        injection h with h; subst h
        exact Or.inr (kSmallestHash_error_iff.mp hs).2
      | ok sig =>
        cases ha : kSmallestPipeline E nGram gt p bits s ts with
        | error e2 =>
          rw [kPipe_cons_ok_error hk hs ha] at h
          injection h with h; subst h
          exact ih ha
        | ok rest => rw [kPipe_cons_ok_ok hk hs ha] at h; cases h

theorem kSmallestPipeline_perm_error_iff {E : HashEngine} {nGram : Nat}
    {gt : String} {p bits : Nat} {s : Int} {ts : List String}
    (hne : ∀ t ∈ ts, rawShingles nGram gt t ≠ []) :
    kSmallestPipeline E nGram gt p bits s ts = .error .permutationsError ↔
      ∃ t ∈ ts, (rawShingles nGram gt t).length ≤ p := by
  induction ts with
  | nil =>
    constructor
    · intro h; cases h
    · rintro ⟨x, hx, -⟩; cases hx
  | cons t ts ih =>
    have hnt := hne t (List.mem_cons_self t ts)
    have hne2 : ∀ x ∈ ts, rawShingles nGram gt x ≠ [] :=
      fun x hx => hne x (List.mem_cons_of_mem t hx)
    have hk : kShingles1 nGram gt t = .ok (rawShingles nGram gt t) :=
      kShingles1_ok_iff.mpr ⟨hnt, rfl⟩
    by_cases hlen : (rawShingles nGram gt t).length ≤ p
    · have hs : kSmallestHash E p bits s (rawShingles nGram gt t) =
          .error .permutationsError :=
        kSmallestHash_error_iff.mpr ⟨hlen, rfl⟩
      rw [kPipe_cons_hash_error hk hs]
      exact iff_of_true rfl ⟨t, List.mem_cons_self t ts, hlen⟩
    · have hs : kSmallestHash E p bits s (rawShingles nGram gt t) =
          .ok (kSmallestSig E nGram gt p bits s t) :=
        kSmallestHash_ok_iff.mpr ⟨Nat.lt_of_not_le hlen, rfl⟩
      cases ha : kSmallestPipeline E nGram gt p bits s ts with
      | error e2 =>
        rw [kPipe_cons_ok_error hk hs ha]
        constructor
        · intro h
          injection h with h; subst h
          obtain ⟨x, hx, hlx⟩ := (ih hne2).mp ha
          exact ⟨x, List.mem_cons_of_mem t hx, hlx⟩
        · rintro ⟨x, hx, hlx⟩
          rcases List.mem_cons.mp hx with rfl | hx
          · exact absurd hlx hlen
          · rw [← (ih hne2).mpr ⟨x, hx, hlx⟩, ha]
      | ok rest =>
        rw [kPipe_cons_ok_ok hk hs ha]
        constructor
        · intro h; cases h
        · rintro ⟨x, hx, hlx⟩
          rcases List.mem_cons.mp hx with rfl | hx
          · exact absurd hlx hlen
          · rw [(ih hne2).mpr ⟨x, hx, hlx⟩] at ha
            cases ha

/-- Unfolding `minHash` on a valid configuration with the multi-hash
method. -/
theorem minHash_multi {σ : Type} (E : HashEngine) (R : RngModel σ)
    (ambient : σ) (nGram : Nat) (nGramType : String) (permutations hashBits : Nat)
    (seed : Option Int) (text : List String)
    (hGT : nGramType = "char" ∨ nGramType = "term")
    (hBits : hashBits = 32 ∨ hashBits = 64 ∨ hashBits = 128) :
    minHash E R ambient nGram nGramType permutations hashBits "multi_hash" seed text =
      (shinglesAll nGram nGramType text).map
        (fun docs => docs.map (fun d =>
          threadMultiHash E d (R.randints (sessionState R ambient seed) permutations)
            hashBits)) := by
  unfold minHash
  rw [if_neg (not_not_intro hGT), if_neg (not_not_intro hBits),
    if_neg (not_not_intro (Or.inl rfl)), if_pos rfl]

/-- Unfolding `minHash` on a valid configuration with the k-smallest
method. -/
theorem minHash_ksmall {σ : Type} (E : HashEngine) (R : RngModel σ)
    (ambient : σ) (nGram : Nat) (nGramType : String) (permutations hashBits : Nat)
    (seed : Option Int) (text : List String)
    (hGT : nGramType = "char" ∨ nGramType = "term")
    (hBits : hashBits = 32 ∨ hashBits = 64 ∨ hashBits = 128) :
    minHash E R ambient nGram nGramType permutations hashBits "k_smallest_values"
        seed text =
      (kSmallestPipeline E nGram nGramType permutations hashBits
          (R.randint1 (sessionState R ambient seed)) text).map
        (fun rows => rows.map (fun row => row.map some)) := by
  unfold minHash
  rw [if_neg (not_not_intro hGT), if_neg (not_not_intro hBits),
    if_neg (not_not_intro (Or.inr rfl)), if_neg (by decide)]

/-! ### Claim theorems: code bugs and counterexamples -/

/-- C1: the multi-hash strategy is claimed to put, at position `j` of the
signature, the minimum over all shingles of the hash under the `j`-th seed.
The code's update guard `if not _min_value:` treats a running minimum of
`0` like the initial `None`, so the minimum is discarded.  On the real
`mmh3.hash` (MurmurHash3 x86 32-bit, modelled bit-exactly by `mmh3Engine`)
the document `["cdtxmjga", "dtxmjgab"]` — the char 8-gram shingles of the
text `"cdtxmjgab"` — hashes under seed 1 to `[0, 1754193523]`, whose
minimum is `0`, yet `thread_multi_hash` returns `1754193523`. -/
theorem C1_multi_hash_drops_zero_minimum :
    (["cdtxmjga", "dtxmjgab"].map (fun sh => hashOf mmh3Engine 32 sh 1)) =
      [0, 1754193523] ∧
    threadMultiHash mmh3Engine ["cdtxmjga", "dtxmjgab"] [1] 32 = [some 1754193523] ∧
    ([0, 1754193523] : List Int).min? = some 0 :=
  ⟨rfl, rfl, rfl⟩

/-- C3: shingle extraction is claimed to produce `len - n_gram + 1` shingles
for every positive `n_gram` and every document at least that long.  With
`n_gram = 1` the slice bound `trim_overflow = (n_gram - 1) * -1` is `0`, and
`list[:0]` empties the shingle list, so the document `"ab"` (length 2 ≥ 1)
produces `[]` and construction raises the insufficient-text error instead of
the claimed two shingles `["a", "b"]`. -/
theorem C3_ngram_one_shingling_fails :
    rawShingles 1 "char" "ab" = [] ∧
    kShingles1 1 "char" "ab" = .error .insufficientText :=
  ⟨rfl, rfl⟩

/-- C2 counterexample: with the explicit seed `0`, the guard `if seed:` is
false, so `np.random.seed` is never called and the construction reads
whatever state the process-global random source happens to be in.  Two runs
whose ambient states differ (as they do when the first run's draws advanced
the global source) produce different signature matrices. -/
theorem C2_seed_zero_not_deterministic :
    minHash hashSeedOnly rngLinear 1 2 "char" 1 64 "multi_hash" (some 0) ["abc"] ≠
      minHash hashSeedOnly rngLinear 2 2 "char" 1 64 "multi_hash" (some 0) ["abc"] := by
  intro h
  rw [show minHash hashSeedOnly rngLinear 1 2 "char" 1 64 "multi_hash" (some 0) ["abc"] =
        .ok [[some 1]] from rfl,
      show minHash hashSeedOnly rngLinear 2 2 "char" 1 64 "multi_hash" (some 0) ["abc"] =
        .ok [[some 2]] from rfl] at h
  simp at h

/-- C4 counterexample: the claim says the permutations-vs-shingles error is
raised when some document's shingle count is at most `permutations`.  The
document `"a"` with `n_gram = 2` has shingle count `0 ≤ 5`, but construction
fails with the insufficient-text error instead: the emptiness check of
`_k_shingles` fires before `_k_smallest_hash` is ever called. -/
theorem C4_insufficient_text_preempts :
    minHash hashShingleLen rngLinear 0 2 "char" 5 64 "k_smallest_values" none ["a"] =
      .error .insufficientText ∧
    minHash hashShingleLen rngLinear 0 2 "char" 5 64 "k_smallest_values" none ["a"] ≠
      .error .permutationsError ∧
    (rawShingles 2 "char" "a").length ≤ 5 := by
  refine ⟨rfl, ?_, by decide⟩
  intro h
  rw [show minHash hashShingleLen rngLinear 0 2 "char" 5 64 "k_smallest_values" none ["a"] =
        .error .insufficientText from rfl] at h
  simp at h

/-- C7 counterexample: the claim says a corpus containing a document with an
empty shingle sequence fails with the insufficient-text error.  Under the
k-smallest strategy the documents are processed one at a time, so in the
corpus `["abc", "a"]` (with `n_gram = 2`, `permutations = 5`) the first
document's permutations-vs-shingles error fires before the second
document's empty shingle sequence is ever built. -/
theorem C7_perms_error_preempts_insufficient_text :
    minHash hashShingleLen rngLinear 0 2 "char" 5 64 "k_smallest_values" none ["abc", "a"] =
      .error .permutationsError ∧
    rawShingles 2 "char" "a" = [] ∧
    minHash hashShingleLen rngLinear 0 2 "char" 5 64 "k_smallest_values" none ["abc", "a"] ≠
      .error .insufficientText := by
  refine ⟨rfl, rfl, ?_⟩
  intro h
  rw [show minHash hashShingleLen rngLinear 0 2 "char" 5 64 "k_smallest_values" none
        ["abc", "a"] = .error .permutationsError from rfl] at h
  simp at h

/-- C10 counterexample: the claim asserts that any corpus of documents each
longer than `n_gram` succeeds under multi-hash with `permutations = 0`.
With `n_gram = 1` the slice bound `(n_gram - 1) * -1 = 0` empties every
shingle list, so the corpus `["ab"]` (document length 2 > 1) fails with the
insufficient-text error instead of returning a zero-column matrix. -/
theorem C10_ngram_one_breaks_zero_permutations :
    minHash hashShingleLen rngLinear 0 1 "char" 0 64 "multi_hash" none ["ab"] =
      .error .insufficientText ∧
    1 < "ab".length :=
  ⟨rfl, by decide⟩

/-! ### Further helper lemmas for the positive claims -/

theorem sessionState_ne_zero {σ : Type} (R : RngModel σ) (ambient : σ)
    {s : Int} (hs : s ≠ 0) : sessionState R ambient (some s) = R.seedFn s := by
  unfold sessionState
  exact if_neg hs

theorem threadMultiHash_length {E : HashEngine} {d : List String}
    {seeds : List Int} {bits : Nat} :
    (threadMultiHash E d seeds bits).length = seeds.length := by
  unfold threadMultiHash
  rw [List.length_map]

theorem kSmallestSig_length {E : HashEngine} {nGram : Nat} {gt : String}
    {p bits : Nat} {s : Int} {t : String}
    (h : p < (rawShingles nGram gt t).length) :
    (kSmallestSig E nGram gt p bits s t).length = p := by
  unfold kSmallestSig
  rw [List.length_take, List.length_insertionSort, List.length_map]
  exact Nat.min_eq_left (Nat.le_of_lt h)

theorem rawShingles_char_length {nGram : Nat} (h2 : 2 ≤ nGram) (t : String) :
    (rawShingles nGram "char" t).length = t.length - (nGram - 1) := by
  have hneg : ¬(0 ≤ 1 - (nGram : Int)) := by omega
  have htn : (-(1 - (nGram : Int))).toNat = nGram - 1 := by omega
  unfold rawShingles pySliceTo
  rw [if_pos rfl, if_neg hneg, htn]
  simp only [List.length_take, List.length_map, List.length_range]
  exact Nat.min_eq_left (Nat.sub_le _ _)

/-! ### Claim theorems: amended and confirmed properties -/

/-- C2 (amended): for every NONZERO explicit seed, construction is
deterministic — two runs started from arbitrary (possibly different)
states of the process-global random source produce identical results,
because `np.random.seed(seed)` resets the source to a state depending
only on the seed.  (The unamended claim, covering every integer seed,
fails at seed `0`.) -/
theorem C2_determinism_nonzero_seed {σ : Type} (E : HashEngine) (R : RngModel σ)
    (amb1 amb2 : σ) (nGram : Nat) (nGramType : String)
    (permutations hashBits : Nat) (method : String) (s : Int) (hs : s ≠ 0)
    (text : List String) :
    minHash E R amb1 nGram nGramType permutations hashBits method (some s) text =
      minHash E R amb2 nGram nGramType permutations hashBits method (some s) text := by
  unfold minHash
  rw [sessionState_ne_zero R amb1 hs, sessionState_ne_zero R amb2 hs]

/-- Witness for C2: the determinism theorem applied at seed 42 with two
distinct ambient states. -/
theorem C2_determinism_nonzero_seed_witness :
    (42 : Int) ≠ 0 ∧
    minHash hashSeedOnly rngLinear 1 2 "char" 2 64 "multi_hash" (some 42) ["abc"] =
      minHash hashSeedOnly rngLinear 2 2 "char" 2 64 "multi_hash" (some 42) ["abc"] :=
  ⟨by decide, C2_determinism_nonzero_seed hashSeedOnly rngLinear 1 2 2 "char" 2 64
    "multi_hash" 42 (by decide) ["abc"]⟩

/-- C4 (amended): provided every document in the corpus yields at least one
shingle, the k-smallest strategy fails with the permutations-vs-shingles
error exactly when some document's shingle count is at most `permutations`;
in particular a corpus in which every document has strictly more shingles
than `permutations` never triggers that error.  (The unamended "if and only
if" fails when a document yields no shingles at all: the insufficient-text
error preempts the permutations check.) -/
theorem C4_k_smallest_perm_error_iff {σ : Type} (E : HashEngine)
    (R : RngModel σ) (ambient : σ) (nGram : Nat) (nGramType : String)
    (permutations hashBits : Nat) (seed : Option Int) (text : List String)
    (hGT : nGramType = "char" ∨ nGramType = "term")
    (hBits : hashBits = 32 ∨ hashBits = 64 ∨ hashBits = 128)
    (hne : ∀ t ∈ text, rawShingles nGram nGramType t ≠ []) :
    minHash E R ambient nGram nGramType permutations hashBits
        "k_smallest_values" seed text = .error .permutationsError ↔
      ∃ t ∈ text, (rawShingles nGram nGramType t).length ≤ permutations := by
  rw [minHash_ksmall E R ambient nGram nGramType permutations hashBits seed text
    hGT hBits, except_map_error]
  exact kSmallestPipeline_perm_error_iff hne

/-- Witness for C4: a one-document corpus with 2 shingles and
`permutations = 5` satisfies the hypotheses, and the equivalence holds. -/
theorem C4_k_smallest_perm_error_iff_witness :
    (("char" : String) = "char" ∨ ("char" : String) = "term") ∧
    ((64 : Nat) = 32 ∨ (64 : Nat) = 64 ∨ (64 : Nat) = 128) ∧
    (∀ t ∈ (["abc"] : List String), rawShingles 2 "char" t ≠ []) ∧
    (minHash hashShingleLen rngLinear 0 2 "char" 5 64 "k_smallest_values" none
        ["abc"] = .error .permutationsError ↔
      ∃ t ∈ (["abc"] : List String), (rawShingles 2 "char" t).length ≤ 5) :=
  ⟨Or.inl rfl, Or.inr (Or.inl rfl), by decide,
    C4_k_smallest_perm_error_iff hashShingleLen rngLinear 0 2 "char" 5 64 none
      ["abc"] (Or.inl rfl) (Or.inr (Or.inl rfl)) (by decide)⟩

/-- C5: for a document with strictly more shingles than `permutations`,
the k-smallest strategy returns exactly the `permutations` smallest hash
values of the shingle multiset, in ascending order: the signature is
sorted, has length `permutations`, and together with the remaining hash
values it is a permutation of the full hash multiset, every signature
entry being bounded by every remaining value. -/
theorem C5_k_smallest_signature (E : HashEngine) (permutations hashBits : Nat)
    (hashSeed : Int) (document : List String)
    (h : permutations < document.length) :
    ∃ sig rest,
      kSmallestHash E permutations hashBits hashSeed document = .ok sig ∧
      sig.length = permutations ∧
      sig.Sorted (fun a b => a ≤ b) ∧
      (sig ++ rest).Perm (document.map (fun sh => hashOf E hashBits sh hashSeed)) ∧
      ∀ x ∈ sig, ∀ y ∈ rest, x ≤ y := by
  refine ⟨((document.map (fun sh => hashOf E hashBits sh hashSeed)).insertionSort
      (fun a b => a ≤ b)).take permutations,
    ((document.map (fun sh => hashOf E hashBits sh hashSeed)).insertionSort
      (fun a b => a ≤ b)).drop permutations, ?_, ?_, ?_, ?_, ?_⟩
  · exact kSmallestHash_ok_iff.mpr ⟨h, rfl⟩
  · rw [List.length_take, List.length_insertionSort, List.length_map]
    exact Nat.min_eq_left (Nat.le_of_lt h)
  · exact List.Pairwise.sublist (List.take_sublist _ _)
      (List.sorted_insertionSort _ _)
  · rw [List.take_append_drop]
    exact List.perm_insertionSort _ _
  · have hp : List.Pairwise (fun a b => a ≤ b)
        (((document.map (fun sh => hashOf E hashBits sh hashSeed)).insertionSort
            (fun a b => a ≤ b)).take permutations ++
          ((document.map (fun sh => hashOf E hashBits sh hashSeed)).insertionSort
            (fun a b => a ≤ b)).drop permutations) := by
      rw [List.take_append_drop]
      exact List.sorted_insertionSort _ _
    exact (List.pairwise_append.mp hp).2.2

/-- Witness for C5: a two-shingle document with `permutations = 1`. -/
theorem C5_k_smallest_signature_witness :
    1 < (["a", "bb"] : List String).length ∧
    ∃ sig rest,
      kSmallestHash hashShingleLen 1 64 0 ["a", "bb"] = .ok sig ∧
      sig.length = 1 ∧
      sig.Sorted (fun a b => a ≤ b) ∧
      (sig ++ rest).Perm ((["a", "bb"] : List String).map
        (fun sh => hashOf hashShingleLen 64 sh 0)) ∧
      ∀ x ∈ sig, ∀ y ∈ rest, x ≤ y :=
  ⟨by decide, C5_k_smallest_signature hashShingleLen 1 64 0 ["a", "bb"] (by decide)⟩

/-- C6: whenever construction succeeds, the signature matrix has one row
per corpus document (in corpus order), every row has length
`permutations`, and row `i` equals the signature the same construction
assigns to the one-document corpus containing document `i` alone. -/
theorem C6_signature_matrix_shape {σ : Type} (E : HashEngine) (R : RngModel σ)
    (ambient : σ) (nGram : Nat) (nGramType : String)
    (permutations hashBits : Nat) (method : String) (seed : Option Int)
    (text : List String) (M : List (List (Option Int)))
    (h : minHash E R ambient nGram nGramType permutations hashBits method
      seed text = .ok M) :
    M.length = text.length ∧
    (∀ row ∈ M, row.length = permutations) ∧
    ∀ i (hi : i < text.length) (hi2 : i < M.length),
      minHash E R ambient nGram nGramType permutations hashBits method seed
        [text.get ⟨i, hi⟩] = .ok [M.get ⟨i, hi2⟩] := by
  have hGT : nGramType = "char" ∨ nGramType = "term" := by
    by_contra hc
    unfold minHash at h
    rw [if_pos hc] at h
    cases h
  have hBits : hashBits = 32 ∨ hashBits = 64 ∨ hashBits = 128 := by
    by_contra hc
    unfold minHash at h
    rw [if_neg (not_not_intro hGT), if_pos hc] at h
    cases h
  have hMethod : method = "multi_hash" ∨ method = "k_smallest_values" := by
    by_contra hc
    unfold minHash at h
    rw [if_neg (not_not_intro hGT), if_neg (not_not_intro hBits), if_pos hc] at h
    cases h
  rcases hMethod with rfl | rfl
  · rw [minHash_multi E R ambient nGram nGramType permutations hashBits seed
      text hGT hBits] at h
    obtain ⟨docs, hdocs, hM⟩ := except_map_ok.mp h
    obtain ⟨hne, rfl⟩ := shinglesAll_ok_iff.mp hdocs
    subst hM
    refine ⟨by simp, ?_, ?_⟩
    · intro row hrow
      obtain ⟨d, -, rfl⟩ := List.mem_map.mp hrow
      rw [threadMultiHash_length, R.randints_length]
    · intro i hi hi2
      rw [minHash_multi E R ambient nGram nGramType permutations hashBits seed
        [text.get ⟨i, hi⟩] hGT hBits,
        shinglesAll_ok_iff.mpr (⟨fun x hx => by
          rcases List.mem_singleton.mp hx with rfl
          exact hne _ (List.get_mem text i hi), rfl⟩ :
            (∀ t ∈ [text.get ⟨i, hi⟩], rawShingles nGram nGramType t ≠ []) ∧
              [text.get ⟨i, hi⟩].map (rawShingles nGram nGramType) =
                [text.get ⟨i, hi⟩].map (rawShingles nGram nGramType))]
      have h2 : ((text.map (rawShingles nGram nGramType)).map
          (fun d => threadMultiHash E d
            (R.randints (sessionState R ambient seed) permutations)
            hashBits)).get ⟨i, hi2⟩ =
          threadMultiHash E (rawShingles nGram nGramType (text.get ⟨i, hi⟩))
            (R.randints (sessionState R ambient seed) permutations) hashBits := by
        simp
      rw [h2]
      rfl
  · rw [minHash_ksmall E R ambient nGram nGramType permutations hashBits seed
      text hGT hBits] at h
    obtain ⟨rows, hrows, hM⟩ := except_map_ok.mp h
    obtain ⟨hall, rfl⟩ := kSmallestPipeline_ok_iff.mp hrows
    subst hM
    refine ⟨by simp, ?_, ?_⟩
    · intro row hrow
      obtain ⟨row2, hrow2, rfl⟩ := List.mem_map.mp hrow
      obtain ⟨t, ht, rfl⟩ := List.mem_map.mp hrow2
      rw [List.length_map]
      exact kSmallestSig_length (hall t ht)
    · intro i hi hi2
      rw [minHash_ksmall E R ambient nGram nGramType permutations hashBits seed
        [text.get ⟨i, hi⟩] hGT hBits,
        kSmallestPipeline_ok_iff.mpr (⟨fun x hx => by
          rcases List.mem_singleton.mp hx with rfl
          exact hall _ (List.get_mem text i hi), rfl⟩ :
            (∀ t ∈ [text.get ⟨i, hi⟩], permutations <
              (rawShingles nGram nGramType t).length) ∧
              [text.get ⟨i, hi⟩].map (kSmallestSig E nGram nGramType permutations
                hashBits (R.randint1 (sessionState R ambient seed))) =
              [text.get ⟨i, hi⟩].map (kSmallestSig E nGram nGramType permutations
                hashBits (R.randint1 (sessionState R ambient seed))))]
      have h2 : ((text.map (kSmallestSig E nGram nGramType permutations hashBits
          (R.randint1 (sessionState R ambient seed)))).map
            (fun row => row.map some)).get ⟨i, hi2⟩ =
          (kSmallestSig E nGram nGramType permutations hashBits
            (R.randint1 (sessionState R ambient seed))
            (text.get ⟨i, hi⟩)).map some := by
        simp
      rw [h2]
      rfl

/-- Witness for C6: a successful two-document multi-hash construction,
with the shape conclusions instantiated. -/
theorem C6_signature_matrix_shape_witness :
    minHash hashShingleLen rngLinear 0 2 "char" 1 64 "multi_hash" none
        ["abc", "de"] = .ok [[some 2], [some 2]] ∧
    (([[some 2], [some 2]] : List (List (Option Int))).length =
      (["abc", "de"] : List String).length ∧
    (∀ row ∈ ([[some 2], [some 2]] : List (List (Option Int))), row.length = 1) ∧
    ∀ i (hi : i < (["abc", "de"] : List String).length)
      (hi2 : i < ([[some 2], [some 2]] : List (List (Option Int))).length),
      minHash hashShingleLen rngLinear 0 2 "char" 1 64 "multi_hash" none
          [(["abc", "de"] : List String).get ⟨i, hi⟩] =
        .ok [([[some 2], [some 2]] : List (List (Option Int))).get ⟨i, hi2⟩]) :=
  ⟨rfl, C6_signature_matrix_shape hashShingleLen rngLinear 0 2 "char" 1 64
    "multi_hash" none ["abc", "de"] [[some 2], [some 2]] rfl⟩

/-- C7 (amended): a corpus containing a document with an empty shingle
sequence always fails (no matrix is produced); under the multi-hash
strategy the error is always the insufficient-text error, while under the
k-smallest strategy an earlier document's permutations-vs-shingles error
may fire first. -/
theorem C7_empty_shingles_fail {σ : Type} (E : HashEngine) (R : RngModel σ)
    (ambient : σ) (nGram : Nat) (nGramType : String)
    (permutations hashBits : Nat) (method : String) (seed : Option Int)
    (text : List String)
    (hGT : nGramType = "char" ∨ nGramType = "term")
    (hBits : hashBits = 32 ∨ hashBits = 64 ∨ hashBits = 128)
    (hMethod : method = "multi_hash" ∨ method = "k_smallest_values")
    (hempty : ∃ t ∈ text, rawShingles nGram nGramType t = []) :
    (∃ e, minHash E R ambient nGram nGramType permutations hashBits method
      seed text = .error e) ∧
    (method = "multi_hash" →
      minHash E R ambient nGram nGramType permutations hashBits method seed
        text = .error .insufficientText) ∧
    (method = "k_smallest_values" →
      minHash E R ambient nGram nGramType permutations hashBits method seed
          text = .error .insufficientText ∨
        minHash E R ambient nGram nGramType permutations hashBits method seed
          text = .error .permutationsError) := by
  rcases hMethod with rfl | rfl
  · have hmh : minHash E R ambient nGram nGramType permutations hashBits
        "multi_hash" seed text = .error .insufficientText := by
      rw [minHash_multi E R ambient nGram nGramType permutations hashBits seed
        text hGT hBits, except_map_error]
      exact shinglesAll_error_iff.mpr ⟨rfl, hempty⟩
    exact ⟨⟨.insufficientText, hmh⟩, fun _ => hmh,
      fun hcon => absurd hcon (by decide)⟩
  · have hpipe : ∃ e, kSmallestPipeline E nGram nGramType permutations hashBits
        (R.randint1 (sessionState R ambient seed)) text = .error e ∧
        (e = .insufficientText ∨ e = .permutationsError) := by
      cases hp : kSmallestPipeline E nGram nGramType permutations hashBits
          (R.randint1 (sessionState R ambient seed)) text with
      | error e => exact ⟨e, rfl, kSmallestPipeline_error_cases hp⟩
      | ok out =>
        obtain ⟨hall, -⟩ := kSmallestPipeline_ok_iff.mp hp
        obtain ⟨t, ht, hraw⟩ := hempty
        have hlt := hall t ht
        rw [hraw] at hlt
        exact absurd hlt (Nat.not_lt_zero _)
    obtain ⟨e, hp, he⟩ := hpipe
    have hmh : minHash E R ambient nGram nGramType permutations hashBits
        "k_smallest_values" seed text = .error e := by
      rw [minHash_ksmall E R ambient nGram nGramType permutations hashBits seed
        text hGT hBits, except_map_error]
      exact hp
    refine ⟨⟨e, hmh⟩, fun hcon => absurd hcon (by decide), fun _ => ?_⟩
    rcases he with rfl | rfl
    · exact Or.inl hmh
    · exact Or.inr hmh

/-- Witness for C7: the spec's own example, the one-document corpus
`["hi"]` with the default `n_gram = 9`, under multi-hash. -/
theorem C7_empty_shingles_fail_witness :
    (("char" : String) = "char" ∨ ("char" : String) = "term") ∧
    ((64 : Nat) = 32 ∨ (64 : Nat) = 64 ∨ (64 : Nat) = 128) ∧
    (("multi_hash" : String) = "multi_hash" ∨
      ("multi_hash" : String) = "k_smallest_values") ∧
    (∃ t ∈ (["hi"] : List String), rawShingles 9 "char" t = []) ∧
    ((∃ e, minHash hashShingleLen rngLinear 0 9 "char" 100 64 "multi_hash" none
      ["hi"] = .error e) ∧
    (("multi_hash" : String) = "multi_hash" →
      minHash hashShingleLen rngLinear 0 9 "char" 100 64 "multi_hash" none
        ["hi"] = .error .insufficientText) ∧
    (("multi_hash" : String) = "k_smallest_values" →
      minHash hashShingleLen rngLinear 0 9 "char" 100 64 "multi_hash" none
          ["hi"] = .error .insufficientText ∨
        minHash hashShingleLen rngLinear 0 9 "char" 100 64 "multi_hash" none
          ["hi"] = .error .permutationsError)) :=
  ⟨Or.inl rfl, Or.inr (Or.inl rfl), Or.inl rfl, by decide,
    C7_empty_shingles_fail hashShingleLen rngLinear 0 9 "char" 100 64
      "multi_hash" none ["hi"] (Or.inl rfl) (Or.inr (Or.inl rfl)) (Or.inl rfl)
      (by decide)⟩

/-- C8: configuration validation is eager — with an unsupported
`n_gram_type`, `hash_bits` or `method`, construction fails with one of the
three configuration errors for EVERY corpus (in particular also for
corpora whose shingling or hashing would itself fail), showing that no
shingling or hashing is reached. -/
theorem C8_eager_config_validation {σ : Type} (E : HashEngine) (R : RngModel σ)
    (ambient : σ) (nGram : Nat) (nGramType : String)
    (permutations hashBits : Nat) (method : String) (seed : Option Int)
    (text : List String)
    (hbad : ¬(nGramType = "char" ∨ nGramType = "term") ∨
      ¬(hashBits = 32 ∨ hashBits = 64 ∨ hashBits = 128) ∨
      ¬(method = "multi_hash" ∨ method = "k_smallest_values")) :
    minHash E R ambient nGram nGramType permutations hashBits method seed
        text = .error .invalidNGramType ∨
    minHash E R ambient nGram nGramType permutations hashBits method seed
        text = .error .invalidHashBits ∨
    minHash E R ambient nGram nGramType permutations hashBits method seed
        text = .error .invalidMethod := by
  unfold minHash
  by_cases h1 : nGramType = "char" ∨ nGramType = "term"
  · rw [if_neg (not_not_intro h1)]
    by_cases h2 : hashBits = 32 ∨ hashBits = 64 ∨ hashBits = 128
    · rw [if_neg (not_not_intro h2)]
      have h3 : ¬(method = "multi_hash" ∨ method = "k_smallest_values") := by
        rcases hbad with hb | hb | hb
        · exact absurd h1 hb
        · exact absurd h2 hb
        · exact hb
      rw [if_pos h3]
      exact Or.inr (Or.inr rfl)
    · rw [if_pos h2]
      exact Or.inr (Or.inl rfl)
  · rw [if_pos h1]
    exact Or.inl rfl

/-- Witness for C8: an unsupported method name fails with the method
configuration error even though the corpus `["hi"]` would itself fail
shingling (the validation fires first). -/
theorem C8_eager_config_validation_witness :
    (¬(("char" : String) = "char" ∨ ("char" : String) = "term") ∨
      ¬((64 : Nat) = 32 ∨ (64 : Nat) = 64 ∨ (64 : Nat) = 128) ∨
      ¬(("bogus" : String) = "multi_hash" ∨
        ("bogus" : String) = "k_smallest_values")) ∧
    (minHash hashShingleLen rngLinear 0 9 "char" 100 64 "bogus" none ["hi"] =
        .error .invalidNGramType ∨
      minHash hashShingleLen rngLinear 0 9 "char" 100 64 "bogus" none ["hi"] =
        .error .invalidHashBits ∨
      minHash hashShingleLen rngLinear 0 9 "char" 100 64 "bogus" none ["hi"] =
        .error .invalidMethod) :=
  ⟨Or.inr (Or.inr (by decide)),
    C8_eager_config_validation hashShingleLen rngLinear 0 9 "char" 100 64
      "bogus" none ["hi"] (Or.inr (Or.inr (by decide)))⟩

/-- C9: the multi-hash strategy never performs the permutations-vs-shingles
check — as long as every document yields at least one shingle, construction
succeeds for every `permutations`, including values at least as large as
the shingle counts, and every signature still has length `permutations`. -/
theorem C9_multi_hash_tolerates_large_permutations {σ : Type} (E : HashEngine)
    (R : RngModel σ) (ambient : σ) (nGram : Nat) (nGramType : String)
    (permutations hashBits : Nat) (seed : Option Int) (text : List String)
    (hGT : nGramType = "char" ∨ nGramType = "term")
    (hBits : hashBits = 32 ∨ hashBits = 64 ∨ hashBits = 128)
    (hne : ∀ t ∈ text, rawShingles nGram nGramType t ≠ [])
    (hperm : ∀ t ∈ text, (rawShingles nGram nGramType t).length ≤ permutations) :
    ∃ M, minHash E R ambient nGram nGramType permutations hashBits
        "multi_hash" seed text = .ok M ∧
      ∀ row ∈ M, row.length = permutations := by
  refine ⟨(text.map (rawShingles nGram nGramType)).map
      (fun d => threadMultiHash E d
        (R.randints (sessionState R ambient seed) permutations) hashBits),
    ?_, ?_⟩
  · rw [minHash_multi E R ambient nGram nGramType permutations hashBits seed
      text hGT hBits, shinglesAll_ok_iff.mpr ⟨hne, rfl⟩]
    rfl
  · intro row hrow
    obtain ⟨d, -, rfl⟩ := List.mem_map.mp hrow
    rw [threadMultiHash_length, R.randints_length]

/-- Witness for C9: a document with 2 shingles and `permutations = 5`. -/
theorem C9_multi_hash_tolerates_large_permutations_witness :
    (("char" : String) = "char" ∨ ("char" : String) = "term") ∧
    ((64 : Nat) = 32 ∨ (64 : Nat) = 64 ∨ (64 : Nat) = 128) ∧
    (∀ t ∈ (["abc"] : List String), rawShingles 2 "char" t ≠ []) ∧
    (∀ t ∈ (["abc"] : List String), (rawShingles 2 "char" t).length ≤ 5) ∧
    ∃ M, minHash hashShingleLen rngLinear 0 2 "char" 5 64 "multi_hash" none
        ["abc"] = .ok M ∧
      ∀ row ∈ M, row.length = 5 :=
  ⟨Or.inl rfl, Or.inr (Or.inl rfl), by decide, by decide,
    C9_multi_hash_tolerates_large_permutations hashShingleLen rngLinear 0 2
      "char" 5 64 none ["abc"] (Or.inl rfl) (Or.inr (Or.inl rfl)) (by decide)
      (by decide)⟩

/-- C10 (amended): the constructor performs no positivity validation on
`permutations`: for every `n_gram ≥ 2` and corpus of documents each longer
than `n_gram`, multi-hash construction with `permutations = 0` succeeds
and returns a matrix with one empty (zero-column) row per document.  (The
unamended claim also covered `n_gram = 1`, where the shingle-trimming slip
makes construction fail with the insufficient-text error instead.) -/
theorem C10_zero_permutations_ok {σ : Type} (E : HashEngine) (R : RngModel σ)
    (ambient : σ) (nGram : Nat) (seed : Option Int) (text : List String)
    (h2 : 2 ≤ nGram) (hlen : ∀ t ∈ text, nGram < t.length) :
    ∃ M, minHash E R ambient nGram "char" 0 64 "multi_hash" seed text = .ok M ∧
      M.length = text.length ∧ ∀ row ∈ M, row = [] := by
  have hne : ∀ t ∈ text, rawShingles nGram "char" t ≠ [] := by
    intro t ht hnil
    have hL := rawShingles_char_length h2 t
    rw [hnil] at hL
    simp only [List.length_nil] at hL
    have := hlen t ht
    omega
  refine ⟨(text.map (rawShingles nGram "char")).map
      (fun d => threadMultiHash E d
        (R.randints (sessionState R ambient seed) 0) 64), ?_, by simp, ?_⟩
  · rw [minHash_multi E R ambient nGram "char" 0 64 seed text (Or.inl rfl)
      (Or.inr (Or.inl rfl)), shinglesAll_ok_iff.mpr ⟨hne, rfl⟩]
    rfl
  · intro row hrow
    obtain ⟨d, -, rfl⟩ := List.mem_map.mp hrow
    have hz : (threadMultiHash E d
        (R.randints (sessionState R ambient seed) 0) 64).length = 0 := by
      rw [threadMultiHash_length, R.randints_length]
    exact List.eq_nil_of_length_eq_zero hz

/-- Witness for C10: `n_gram = 2` and the corpus `["abc"]`. -/
theorem C10_zero_permutations_ok_witness :
    2 ≤ 2 ∧
    (∀ t ∈ (["abc"] : List String), 2 < t.length) ∧
    ∃ M, minHash hashShingleLen rngLinear 0 2 "char" 0 64 "multi_hash" none
        ["abc"] = .ok M ∧
      M.length = (["abc"] : List String).length ∧ ∀ row ∈ M, row = [] :=
  ⟨by decide, by decide,
    C10_zero_permutations_ok hashShingleLen rngLinear 0 2 none ["abc"]
      (by decide) (by decide)⟩

end SnaPy
